import Mathlib

/-!
Verification of the table-combining logic of the Excel Combiner utility
(`exel.py`).  The one piece of non-presentation logic is the function
`combine_excel_files`, which parses each uploaded file into a dataframe
via `pd.read_excel`, returns `None` after emitting an error message if any
file fails to parse, returns `None` on an empty input list, and otherwise
returns `pd.concat(all_dfs, ignore_index=True)`.

The embedding below models a dataframe as a `Table` (named columns, an
integer row index, and rows of optional cell values, where `none` stands
for an empty/NaN cell).  The external parser `pd.read_excel` is an oracle
parameter `parse : UploadedFile → Except String Table`; the Streamlit
`st.error` call is reified as the list of emitted messages in the result.
`pd.concat(_, ignore_index=True)` is embedded by `pd_concat_ignore_index`
following pandas' documented outer-join semantics on columns: the result
columns are the union of the inputs' columns in order of first appearance,
rows are stacked in input order with cells of absent columns left empty,
and the result index is renumbered `0, 1, 2, ...`.
-/

/-- A cell value: `none` models an empty cell (pandas `NaN`). -/
abbrev Cell := Option String

/-- A dataframe: ordered named columns, an integer row index, and rows.
Each row is the list of its cells in column order. -/
structure Table where
  cols : List String
  index : List Nat
  rows : List (List Cell)
deriving DecidableEq, Repr

/-- The table with no columns and no rows, used as a `getD` default. -/
def emptyTable : Table := { cols := [], index := [], rows := [] }

instance : Inhabited Table := ⟨emptyTable⟩

/-- An uploaded file as supplied by the UI: a name and byte content. -/
structure UploadedFile where
  name : String
  content : List Nat
deriving DecidableEq, Repr

/-- Index of the first occurrence of column `c` in a column list
(pandas label lookup). -/
def colIdx : List String → String → Option Nat
  | [], _ => none
  | c2 :: cs, c => if c2 = c then some 0 else (colIdx cs c).map (· + 1)

/-- The cell of `t` at row position `i` and column label `c`; empty when
the column is absent or the position is out of range. -/
def Table.cell (t : Table) (i : Nat) (c : String) : Cell :=
  match colIdx t.cols c with
  | some k => (t.rows.getD i []).getD k none
  | none => none

/-- Reindex one source row (with source columns `tcols`) to the combined
column list `cols`: cells of columns absent from the source become empty.
This is pandas' column alignment during `pd.concat`. -/
def alignRow (tcols : List String) (row : List Cell) (cols : List String) : List Cell :=
  cols.map (fun c =>
    match colIdx tcols c with
    | some i => row.getD i none
    | none => none)

/-- The combined column list: a left fold that appends, for each input
column list in order, the columns not already present.  This is pandas'
outer join on columns with `sort=False` (order of first appearance). -/
def concatCols (css : List (List String)) : List String :=
  css.foldl (fun acc cs => acc ++ cs.filter (fun c => decide (c ∉ acc))) []

/-- The aligned row block contributed by one source table, given its
columns, its rows, and the combined column list. -/
def blockRows (cols : List String) (p : List String × List (List Cell)) : List (List Cell) :=
  p.2.map (fun r => alignRow p.1 r cols)

/-- Embedding of `pd.concat(all_dfs, ignore_index=True)`: outer-joined
columns, stacked aligned rows, and a fresh sequential row index. -/
def pd_concat_ignore_index (ts : List Table) : Table :=
  let data := ts.map (fun t => (t.cols, t.rows))
  let cols := concatCols (data.map Prod.fst)
  let rows := (data.map (blockRows cols)).flatten
  { cols := cols, index := List.range rows.length, rows := rows }

/-- The loop body of `combine_excel_files`: parse each file in order,
accumulating dataframes; on the first parse failure return `none`
together with the emitted `st.error` message. -/
def combineLoop (parse : UploadedFile → Except String Table) :
    List UploadedFile → List Table → Option (List Table) × List String
  | [], acc => (some acc, [])
  | f :: fs, acc =>
    match parse f with
    | Except.ok df => combineLoop parse fs (acc ++ [df])
    | Except.error e => (none, ["Error reading " ++ f.name ++ ": " ++ e])

/-- Embedding of `combine_excel_files`: the returned value (a combined
table, or `none` on failure or empty input) paired with the list of
error messages shown to the user. -/
def combine_excel_files (parse : UploadedFile → Except String Table)
    (uploaded_files : List UploadedFile) : Option Table × List String :=
  match combineLoop parse uploaded_files [] with
  | (none, msgs) => (none, msgs)
  | (some all_dfs, msgs) =>
    if all_dfs.isEmpty then (none, msgs)
    else (some (pd_concat_ignore_index all_dfs), msgs)

/-- The tables of the files that parse successfully, or `none` as soon as
one fails: the pure content of the parsing loop. -/
def okTables (parse : UploadedFile → Except String Table) :
    List UploadedFile → Option (List Table)
  | [] => some []
  | f :: fs =>
    match parse f with
    | Except.ok t => (okTables parse fs).map (fun ts => t :: ts)
    | Except.error _ => none

/-- The row offset at which table `i` of `ts` starts in the combined
table: the total row count of the preceding tables. -/
def rowOffset (ts : List Table) (i : Nat) : Nat :=
  (((ts.take i).map (fun t => t.rows.length))).sum

/-- The columns of file `cs` not already among `seen`, in order.
Spec wording: "columns present in later tables but absent from earlier
ones are appended". -/
def newlySeen (seen : List String) (cs : List String) : List String :=
  cs.filter (fun c => decide (c ∉ seen))

/-- Column order described by the spec, relative to the columns `seen` so
far: each file contributes its not-yet-seen columns, in file order. -/
def specColumnOrderAux (seen : List String) : List (List String) → List String
  | [] => []
  | cs :: rest =>
    newlySeen seen cs ++ specColumnOrderAux (seen ++ newlySeen seen cs) rest

/-- Column order described by the spec: "the first file's order followed
by newly-seen columns in file order". -/
def specColumnOrder (css : List (List String)) : List String :=
  specColumnOrderAux [] css

/-! ### Concrete data used to exercise the theorems -/

/-- Spec scenario file A: columns `[Name, Age]`, two rows. -/
def tableA : Table :=
  { cols := ["Name", "Age"], index := [0, 1],
    rows := [[some "Alice", some "30"], [some "Bob", some "25"]] }

/-- Spec scenario file B: columns `[Name, City]`, three rows. -/
def tableB : Table :=
  { cols := ["Name", "City"], index := [0, 1, 2],
    rows := [[some "Carol", some "Paris"], [some "Dan", some "Rome"],
      [some "Eve", some "Oslo"]] }

/-- A table with zero rows but two columns. -/
def tableE : Table := { cols := ["Name", "Extra"], index := [], rows := [] }

def fileA : UploadedFile := { name := "a.xlsx", content := [1] }

def fileB : UploadedFile := { name := "b.xlsx", content := [2] }

def fileE : UploadedFile := { name := "e.xlsx", content := [3] }

def fileBad : UploadedFile := { name := "bad.xlsx", content := [4] }

/-- A concrete parse oracle: files a/b/e parse to the demo tables, every
other file fails the way `pd.read_excel` fails on a corrupt file. -/
def parseDemo : UploadedFile → Except String Table := fun f =>
  if f.name = "a.xlsx" then Except.ok tableA
  else if f.name = "b.xlsx" then Except.ok tableB
  else if f.name = "e.xlsx" then Except.ok tableE
  else Except.error "File is not a zip file"

example : okTables parseDemo [fileA, fileB] = some [tableA, tableB] := by decide

example : (combine_excel_files parseDemo [fileA, fileB]).1
    = some (pd_concat_ignore_index [tableA, tableB]) := by decide

example : (pd_concat_ignore_index [tableA, tableB]).cols
    = ["Name", "Age", "City"] := by decide

example : (pd_concat_ignore_index [tableA, tableB]).rows.length = 5 := by decide

example : (pd_concat_ignore_index [tableA, tableB]).cell 2 "Age" = none := by decide

example : (pd_concat_ignore_index [tableA, tableB]).cell 2 "Name"
    = some "Carol" := by decide

/-- `tableA` with a scrambled row index, used to show that input row
indices do not influence the combined table. -/
def tableA' : Table :=
  { cols := ["Name", "Age"], index := [41, 99],
    rows := [[some "Alice", some "30"], [some "Bob", some "25"]] }

example : concatCols [["Name", "Age"], ["Name", "City"]] = ["Name", "Age", "City"] := by
  decide

example : specColumnOrder [["Name", "Age"], ["Name", "City"]] = ["Name", "Age", "City"] := by
  decide

/-! ### Basic lemmas about the embedding -/

theorem colIdx_eq_none_iff (cs : List String) (c : String) :
    colIdx cs c = none ↔ c ∉ cs := by
  induction cs with
  | nil => simp [colIdx]
  | cons c2 cs ih =>
    by_cases h : c2 = c <;> simp [colIdx, h, Option.map_eq_none', ih]
    intro _ heq
    exact h heq.symm

theorem colIdx_lt (cs : List String) (c : String) (k : Nat)
    (h : colIdx cs c = some k) : k < cs.length := by
  induction cs generalizing k with
  | nil => simp [colIdx] at h
  | cons c2 cs ih =>
    by_cases hc : c2 = c
    · simp [colIdx, hc] at h
      subst h
      simp
    · simp [colIdx, hc, Option.map_eq_some'] at h
      obtain ⟨k', hk', rfl⟩ := h
      have := ih k' hk'
      simp
      omega

theorem colIdx_getD (cs : List String) (c : String) (k : Nat) (d : String)
    (h : colIdx cs c = some k) : cs.getD k d = c := by
  induction cs generalizing k with
  | nil => simp [colIdx] at h
  | cons c2 cs ih =>
    by_cases hc : c2 = c
    · simp [colIdx, hc] at h
      subst h
      simpa using hc
    · simp [colIdx, hc, Option.map_eq_some'] at h
      obtain ⟨k', hk', rfl⟩ := h
      simpa using ih k' hk'

theorem getD_mem_of_lt {α : Type} (l : List α) (i : Nat) (d : α)
    (h : i < l.length) : l.getD i d ∈ l := by
  induction l generalizing i with
  | nil => simp at h
  | cons a l ih =>
    cases i with
    | zero => simp
    | succ i =>
      simp only [List.getD_cons_succ]
      exact List.mem_cons_of_mem a (ih i (by simpa using h))

theorem flatten_getD {α : Type} (bs : List (List α)) :
    ∀ i j (d : α), i < bs.length → j < (bs.getD i []).length →
      bs.flatten.getD ((((bs.take i).map List.length)).sum + j) d
        = (bs.getD i []).getD j d := by
  induction bs with
  | nil => intro i j d hi; simp at hi
  | cons b bs ih =>
    intro i j d hi hj
    cases i with
    | zero =>
      simpa using List.getD_append b bs.flatten d j (by simpa using hj)
    | succ i =>
      have hsum : (((b :: bs).take (i + 1)).map List.length).sum
          = b.length + ((bs.take i).map List.length).sum := by
        simp
      rw [hsum, List.flatten_cons, Nat.add_assoc,
        List.getD_append_right b bs.flatten d _ (Nat.le_add_right _ _),
        Nat.add_sub_cancel_left]
      simpa using ih i j d (by simpa using hi) (by simpa using hj)

/-! ### Column union: fold form versus the spec's description -/

theorem concatCols_foldl_eq_spec (css : List (List String)) :
    ∀ acc : List String,
      css.foldl (fun acc cs => acc ++ cs.filter (fun c => decide (c ∉ acc))) acc
        = acc ++ specColumnOrderAux acc css := by
  induction css with
  | nil => intro acc; simp [specColumnOrderAux]
  | cons cs css ih =>
    intro acc
    simp only [List.foldl_cons, specColumnOrderAux, newlySeen]
    rw [ih]
    simp [List.append_assoc]

theorem concatCols_eq_specColumnOrder (css : List (List String)) :
    concatCols css = specColumnOrder css := by
  simpa [concatCols, specColumnOrder] using concatCols_foldl_eq_spec css []

theorem mem_concatCols_foldl (css : List (List String)) :
    ∀ (acc : List String) (c : String),
      c ∈ css.foldl (fun acc cs => acc ++ cs.filter (fun c => decide (c ∉ acc))) acc
        ↔ c ∈ acc ∨ ∃ cs ∈ css, c ∈ cs := by
  induction css with
  | nil => intro acc c; simp
  | cons cs css ih =>
    intro acc c
    simp only [List.foldl_cons]
    rw [ih]
    simp only [List.mem_append, List.mem_filter, decide_eq_true_eq, List.mem_cons]
    constructor
    · rintro (((h | ⟨h, _⟩) | ⟨cs', hcs', hc⟩))
      · exact Or.inl h
      · exact Or.inr ⟨cs, Or.inl rfl, h⟩
      · exact Or.inr ⟨cs', Or.inr hcs', hc⟩
    · by_cases hacc : c ∈ acc
      · intro _; exact Or.inl (Or.inl hacc)
      · rintro (h | ⟨cs', hcs' | hcs', hc⟩)
        · exact (hacc h).elim
        · subst hcs'; exact Or.inl (Or.inr ⟨hc, hacc⟩)
        · exact Or.inr ⟨cs', hcs', hc⟩

theorem mem_concatCols (css : List (List String)) (c : String) :
    c ∈ concatCols css ↔ ∃ cs ∈ css, c ∈ cs := by
  simpa [concatCols] using mem_concatCols_foldl css [] c

theorem nodup_concatCols_foldl (css : List (List String)) :
    ∀ acc : List String, acc.Nodup → (∀ cs ∈ css, cs.Nodup) →
      (css.foldl (fun acc cs => acc ++ cs.filter (fun c => decide (c ∉ acc))) acc).Nodup := by
  induction css with
  | nil => intro acc hacc _; simpa using hacc
  | cons cs css ih =>
    intro acc hacc hcss
    simp only [List.foldl_cons]
    refine ih _ ?_ (fun cs' h => hcss cs' (List.mem_cons_of_mem cs h))
    refine List.Nodup.append hacc
      (List.Nodup.filter _ (hcss cs (List.mem_cons_self cs css))) ?_
    rw [List.disjoint_left]
    intro a ha hafil
    rw [List.mem_filter, decide_eq_true_eq] at hafil
    exact hafil.2 ha

theorem nodup_concatCols (css : List (List String))
    (h : ∀ cs ∈ css, cs.Nodup) : (concatCols css).Nodup :=
  nodup_concatCols_foldl css [] (List.nodup_nil) h

/-! ### Projections of the concatenation -/

theorem pd_concat_cols (ts : List Table) :
    (pd_concat_ignore_index ts).cols = concatCols (ts.map Table.cols) := by
  simp [pd_concat_ignore_index, List.map_map]
  rfl

theorem pd_concat_rows (ts : List Table) :
    (pd_concat_ignore_index ts).rows
      = ((ts.map (fun t => (t.cols, t.rows))).map
          (blockRows (concatCols (ts.map Table.cols)))).flatten := by
  simp [pd_concat_ignore_index, List.map_map]
  rfl

theorem pd_concat_index (ts : List Table) :
    (pd_concat_ignore_index ts).index
      = List.range (pd_concat_ignore_index ts).rows.length := rfl

theorem pd_concat_length (ts : List Table) :
    (pd_concat_ignore_index ts).rows.length
      = (ts.map (fun t => t.rows.length)).sum := by
  rw [pd_concat_rows, List.length_flatten]
  simp only [List.map_map]
  congr 1
  apply List.map_congr_left
  intro t ht
  simp [Function.comp, blockRows]

/-! ### The parsing loop -/

theorem combineLoop_of_okTables (parse : UploadedFile → Except String Table) :
    ∀ (fs : List UploadedFile) (acc ts : List Table),
      okTables parse fs = some ts →
      combineLoop parse fs acc = (some (acc ++ ts), []) := by
  intro fs
  induction fs with
  | nil =>
    intro acc ts h
    simp [okTables] at h
    subst h
    simp [combineLoop]
  | cons f fs ih =>
    intro acc ts h
    cases hp : parse f with
    | ok t =>
      rw [okTables, hp] at h
      simp only [Option.map_eq_some'] at h
      obtain ⟨ts', hts', rfl⟩ := h
      simp only [combineLoop, hp]
      rw [ih (acc ++ [t]) ts' hts']
      simp
    | error e =>
      rw [okTables, hp] at h
      simp at h

theorem combineLoop_fst_none_iff (parse : UploadedFile → Except String Table) :
    ∀ (fs : List UploadedFile) (acc : List Table),
      (combineLoop parse fs acc).1 = none ↔ okTables parse fs = none := by
  intro fs
  induction fs with
  | nil => intro acc; simp [combineLoop, okTables]
  | cons f fs ih =>
    intro acc
    cases hp : parse f with
    | ok t =>
      simp only [combineLoop, okTables, hp]
      simp only [Option.map_eq_none']
      exact ih (acc ++ [t])
    | error e =>
      simp only [combineLoop, okTables, hp]

theorem okTables_eq_none_iff (parse : UploadedFile → Except String Table) :
    ∀ fs : List UploadedFile,
      okTables parse fs = none ↔ ∃ f ∈ fs, ∃ e, parse f = Except.error e := by
  intro fs
  induction fs with
  | nil => simp [okTables]
  | cons f fs ih =>
    cases hp : parse f with
    | ok t =>
      rw [okTables, hp]
      simp only [Option.map_eq_none', ih, List.mem_cons]
      constructor
      · rintro ⟨g, hg, e, he⟩
        exact ⟨g, Or.inr hg, e, he⟩
      · rintro ⟨g, hg | hg, e, he⟩
        · subst hg; rw [hp] at he; exact absurd he (by simp)
        · exact ⟨g, hg, e, he⟩
    | error e =>
      rw [okTables, hp]
      simp only [true_iff]
      exact ⟨f, List.mem_cons_self f fs, e, hp⟩

theorem okTables_nil_iff (parse : UploadedFile → Except String Table)
    (fs : List UploadedFile) (ts : List Table)
    (h : okTables parse fs = some ts) : ts = [] ↔ fs = [] := by
  cases fs with
  | nil =>
    simp [okTables] at h
    subst h
    simp
  | cons f fs =>
    cases hp : parse f with
    | ok t =>
      rw [okTables, hp] at h
      simp only [Option.map_eq_some'] at h
      obtain ⟨ts', _, rfl⟩ := h
      simp
    | error e =>
      rw [okTables, hp] at h
      simp at h

/-! ### Unfolding the top-level function -/

theorem combine_of_okTables (parse : UploadedFile → Except String Table)
    (files : List UploadedFile) (ts : List Table)
    (hts : okTables parse files = some ts) (hne : files ≠ []) :
    combine_excel_files parse files = (some (pd_concat_ignore_index ts), []) := by
  have hloop := combineLoop_of_okTables parse files [] ts hts
  have htsne : ts ≠ [] := fun h => hne ((okTables_nil_iff parse files ts hts).1 h)
  rw [combine_excel_files, hloop]
  simp [List.isEmpty_iff, htsne]

theorem combine_some_inv (parse : UploadedFile → Except String Table)
    (files : List UploadedFile) (r : Table)
    (h : (combine_excel_files parse files).1 = some r) :
    ∃ ts, okTables parse files = some ts ∧ ts ≠ []
      ∧ r = pd_concat_ignore_index ts := by
  cases hok : okTables parse files with
  | none =>
    exfalso
    have h1 := (combineLoop_fst_none_iff parse files []).2 hok
    rcases hl : combineLoop parse files [] with ⟨o, msgs⟩
    rw [hl] at h1
    simp only at h1
    subst h1
    rw [combine_excel_files, hl] at h
    simp at h
  | some ts =>
    have hloop := combineLoop_of_okTables parse files [] ts hok
    rw [combine_excel_files, hloop] at h
    simp only [List.nil_append] at h
    by_cases hts : ts.isEmpty
    · rw [if_pos hts] at h
      simp at h
    · rw [if_neg hts] at h
      simp only [Option.some.injEq] at h
      exact ⟨ts, rfl, fun hnil => hts (by simp [hnil]), h.symm⟩

/-! ### The rows of the concatenation, block by block -/

theorem getD_map_of_lt {α β : Type} (l : List α) (g : α → β) :
    ∀ (j : Nat) (d1 : β) (d2 : α), j < l.length →
      (l.map g).getD j d1 = g (l.getD j d2) := by
  induction l with
  | nil => intro j d1 d2 h; simp at h
  | cons a l ih =>
    intro j d1 d2 h
    cases j with
    | zero => simp
    | succ j =>
      simp only [List.map_cons, List.getD_cons_succ]
      exact ih j d1 d2 (by simpa using h)

theorem pd_concat_row_eq (ts : List Table) (i j : Nat)
    (hi : i < ts.length) (hj : j < (ts.getD i emptyTable).rows.length) :
    (pd_concat_ignore_index ts).rows.getD (rowOffset ts i + j) []
      = alignRow (ts.getD i emptyTable).cols ((ts.getD i emptyTable).rows.getD j [])
          (concatCols (ts.map Table.cols)) := by
  have hdataD :
      (ts.map (fun t => (t.cols, t.rows))).getD i ([], [])
        = ((ts.getD i emptyTable).cols, (ts.getD i emptyTable).rows) :=
    getD_map_of_lt ts (fun t => (t.cols, t.rows)) i ([], []) emptyTable hi
  have hbsD :
      ((ts.map (fun t => (t.cols, t.rows))).map
          (blockRows (concatCols (ts.map Table.cols)))).getD i []
        = blockRows (concatCols (ts.map Table.cols))
            ((ts.map (fun t => (t.cols, t.rows))).getD i ([], [])) :=
    getD_map_of_lt _ _ i [] ([], []) (by simpa using hi)
  have hblock :
      ((ts.map (fun t => (t.cols, t.rows))).map
          (blockRows (concatCols (ts.map Table.cols)))).getD i []
        = (ts.getD i emptyTable).rows.map
            (fun r => alignRow (ts.getD i emptyTable).cols r
              (concatCols (ts.map Table.cols))) := by
    rw [hbsD, hdataD, blockRows]
  have hoff :
      ((((ts.map (fun t => (t.cols, t.rows))).map
          (blockRows (concatCols (ts.map Table.cols)))).take i).map List.length).sum
        = rowOffset ts i := by
    rw [← List.map_take, ← List.map_take, rowOffset]
    simp only [List.map_map]
    congr 1
    apply List.map_congr_left
    intro t ht
    simp [Function.comp, blockRows]
  have hjlen : j <
      (((ts.map (fun t => (t.cols, t.rows))).map
          (blockRows (concatCols (ts.map Table.cols)))).getD i []).length := by
    rw [hblock]
    simpa using hj
  have hmain := flatten_getD
    ((ts.map (fun t => (t.cols, t.rows))).map (blockRows (concatCols (ts.map Table.cols))))
    i j [] (by simpa using hi) hjlen
  rw [hoff] at hmain
  rw [pd_concat_rows, hmain, hblock]
  exact getD_map_of_lt _ _ j [] [] (by simpa using hj)

/-- The key pointwise description of the combined table: the cell at row
`rowOffset ts i + j` and any column `c` is exactly the cell of source
table `i` at its row `j` and column `c` (empty when that table lacks
column `c`). -/
theorem pd_concat_cell (ts : List Table) (i j : Nat) (c : String)
    (hi : i < ts.length) (hj : j < (ts.getD i emptyTable).rows.length) :
    (pd_concat_ignore_index ts).cell (rowOffset ts i + j) c
      = (ts.getD i emptyTable).cell j c := by
  rcases hk : colIdx (pd_concat_ignore_index ts).cols c with _ | k
  · have hcnotin : c ∉ concatCols (ts.map Table.cols) := by
      rw [← pd_concat_cols]
      exact (colIdx_eq_none_iff _ c).1 hk
    have hcnot_ti : c ∉ (ts.getD i emptyTable).cols := by
      intro hcin
      exact hcnotin ((mem_concatCols (ts.map Table.cols) c).2
        ⟨(ts.getD i emptyTable).cols,
          List.mem_map_of_mem Table.cols (getD_mem_of_lt ts i emptyTable hi), hcin⟩)
    simp only [Table.cell, hk, (colIdx_eq_none_iff _ c).2 hcnot_ti]
  · have hkcols : colIdx (concatCols (ts.map Table.cols)) c = some k := by
      rw [← pd_concat_cols]; exact hk
    have hklt : k < (concatCols (ts.map Table.cols)).length :=
      colIdx_lt _ c k hkcols
    have hkc : (concatCols (ts.map Table.cols)).getD k "" = c :=
      colIdx_getD _ c k "" hkcols
    simp only [Table.cell, hk]
    rw [pd_concat_row_eq ts i j hi hj, alignRow]
    rw [getD_map_of_lt _ _ k none "" hklt, hkc]

/-! ### Remaining auxiliary lemmas -/

theorem specColumnOrder_cons (cs : List String) (rest : List (List String)) :
    specColumnOrder (cs :: rest) = cs ++ specColumnOrderAux cs rest := by
  have hfresh : newlySeen [] cs = cs := by
    simp [newlySeen]
  rw [specColumnOrder, specColumnOrderAux, hfresh, List.nil_append]

theorem sum_map_eraseIdx (ts : List Table) :
    ∀ i, i < ts.length → (ts.getD i emptyTable).rows.length = 0 →
      (ts.map (fun t => t.rows.length)).sum
        = ((ts.eraseIdx i).map (fun t => t.rows.length)).sum := by
  induction ts with
  | nil => intro i hi _; simp at hi
  | cons t ts ih =>
    intro i hi hz
    cases i with
    | zero =>
      simp only [List.getD_cons_zero] at hz
      simp [List.eraseIdx, hz]
    | succ i =>
      simp only [List.getD_cons_succ] at hz
      simp only [List.eraseIdx_cons_succ, List.map_cons, List.sum_cons]
      rw [ih i (by simpa using hi) hz]

theorem map_pairs_eq (ts ts' : List Table)
    (hc : ts.map Table.cols = ts'.map Table.cols)
    (hr : ts.map Table.rows = ts'.map Table.rows) :
    ts.map (fun t => (t.cols, t.rows)) = ts'.map (fun t => (t.cols, t.rows)) := by
  induction ts generalizing ts' with
  | nil => cases ts' <;> simp_all
  | cons t ts ih =>
    cases ts' with
    | nil => simp at hc
    | cons t' ts' =>
      simp only [List.map_cons, List.cons.injEq] at hc hr ⊢
      exact ⟨by rw [hc.1, hr.1], ih ts' hc.2 hr.2⟩

theorem pd_concat_ext (ts ts' : List Table)
    (hc : ts.map Table.cols = ts'.map Table.cols)
    (hr : ts.map Table.rows = ts'.map Table.rows) :
    pd_concat_ignore_index ts = pd_concat_ignore_index ts' := by
  have hp := map_pairs_eq ts ts' hc hr
  simp only [pd_concat_ignore_index]
  rw [hp]

theorem uploadedFiles_eq (fs gs : List UploadedFile)
    (hn : fs.map UploadedFile.name = gs.map UploadedFile.name)
    (hc : fs.map UploadedFile.content = gs.map UploadedFile.content) :
    fs = gs := by
  induction fs generalizing gs with
  | nil => cases gs <;> simp_all
  | cons f fs ih =>
    cases gs with
    | nil => simp at hn
    | cons g gs =>
      simp only [List.map_cons, List.cons.injEq] at hn hc ⊢
      refine ⟨?_, ih gs hn.2 hc.2⟩
      cases f
      cases g
      simp_all

theorem combineLoop_fail_fast (parse : UploadedFile → Except String Table)
    (f : UploadedFile) (e : String) (hf : parse f = Except.error e) :
    ∀ pre : List UploadedFile, (∀ g ∈ pre, ∃ t, parse g = Except.ok t) →
      ∀ (post : List UploadedFile) (acc : List Table),
        combineLoop parse (pre ++ f :: post) acc
          = (none, ["Error reading " ++ f.name ++ ": " ++ e]) := by
  intro pre
  induction pre with
  | nil =>
    intro _ post acc
    simp only [List.nil_append, combineLoop, hf]
  | cons g pre ih =>
    intro hok post acc
    obtain ⟨t, hg⟩ := hok g (List.mem_cons_self g pre)
    simp only [List.cons_append, combineLoop, hg]
    exact ih (fun g' hg' => hok g' (List.mem_cons_of_mem g hg')) post (acc ++ [t])

/-! ### The claims -/

/-- Claim C1: for every non-empty sequence of uploaded files that all
parse successfully (to the tables `ts`), the combine succeeds and the
row count of the returned table is the sum of the row counts of the
parsed input tables. -/
theorem claim_c1_row_count_sum (parse : UploadedFile → Except String Table)
    (files : List UploadedFile) (ts : List Table)
    (hts : okTables parse files = some ts) (hne : files ≠ []) :
    (combine_excel_files parse files).1 = some (pd_concat_ignore_index ts)
      ∧ (pd_concat_ignore_index ts).rows.length
          = (ts.map (fun t => t.rows.length)).sum := by
  refine ⟨?_, pd_concat_length ts⟩
  rw [combine_of_okTables parse files ts hts hne]

theorem claim_c1_row_count_sum_witness :
    (combine_excel_files parseDemo [fileA, fileB]).1
        = some (pd_concat_ignore_index [tableA, tableB])
      ∧ (pd_concat_ignore_index [tableA, tableB]).rows.length
          = ([tableA, tableB].map (fun t => t.rows.length)).sum :=
  claim_c1_row_count_sum parseDemo [fileA, fileB] [tableA, tableB]
    (by decide) (by decide)

/-- Claim C5: the empty input sequence produces no result and no error
message: the returned value is `none` with nothing reported. -/
theorem claim_c5_empty_input (parse : UploadedFile → Except String Table) :
    combine_excel_files parse [] = (none, []) := rfl

/-- Claim C9: the returned value is `none` exactly when the input
sequence is empty or some file fails to parse; in both situations the
returned value is the same (`none`), so it does not distinguish them. -/
theorem claim_c9_none_iff (parse : UploadedFile → Except String Table)
    (files : List UploadedFile) :
    (combine_excel_files parse files).1 = none
      ↔ (files = [] ∨ ∃ f ∈ files, ∃ e, parse f = Except.error e) := by
  constructor
  · intro h
    cases hok : okTables parse files with
    | none => exact Or.inr ((okTables_eq_none_iff parse files).1 hok)
    | some ts =>
      have hloop := combineLoop_of_okTables parse files [] ts hok
      simp only [combine_excel_files, hloop, List.nil_append] at h
      by_cases hts : ts.isEmpty
      · exact Or.inl ((okTables_nil_iff parse files ts hok).1
          (by rwa [List.isEmpty_iff] at hts))
      · rw [if_neg hts] at h
        simp at h
  · rintro (rfl | hfail)
    · rfl
    · have hnone : okTables parse files = none :=
        (okTables_eq_none_iff parse files).2 hfail
      have h1 := (combineLoop_fst_none_iff parse files []).2 hnone
      rcases hl : combineLoop parse files [] with ⟨o, msgs⟩
      rw [hl] at h1
      simp only at h1
      subst h1
      rw [combine_excel_files, hl]

/-- Claim C10: the combine is deterministic: two input sequences whose
files have pairwise the same names and the same byte contents produce
the same result (same table or `none`, and same messages). -/
theorem claim_c10_deterministic (parse : UploadedFile → Except String Table)
    (fs gs : List UploadedFile)
    (hn : fs.map UploadedFile.name = gs.map UploadedFile.name)
    (hc : fs.map UploadedFile.content = gs.map UploadedFile.content) :
    combine_excel_files parse fs = combine_excel_files parse gs := by
  rw [uploadedFiles_eq fs gs hn hc]

theorem claim_c10_deterministic_witness :
    combine_excel_files parseDemo [fileA, fileB]
      = combine_excel_files parseDemo
          [{ name := "a.xlsx", content := [1] }, { name := "b.xlsx", content := [2] }] :=
  claim_c10_deterministic parseDemo [fileA, fileB]
    [{ name := "a.xlsx", content := [1] }, { name := "b.xlsx", content := [2] }]
    (by decide) (by decide)

/-- Claim C2: for every non-empty all-parsing input, the combine succeeds
and its column sequence is the union-by-name of the inputs' columns in
the spec's order (the first file's columns in original order, then
newly-seen columns in file order); membership in the result's columns is
exactly membership in some input's columns, and when every input has
duplicate-free columns the result has no duplicated (suffixed) column. -/
theorem claim_c2_column_union (parse : UploadedFile → Except String Table)
    (files : List UploadedFile) (ts : List Table) (c : String)
    (hts : okTables parse files = some ts) (hne : files ≠ [])
    (hnodup : ∀ t ∈ ts, t.cols.Nodup) :
    (combine_excel_files parse files).1 = some (pd_concat_ignore_index ts)
      ∧ (pd_concat_ignore_index ts).cols = specColumnOrder (ts.map Table.cols)
      ∧ (pd_concat_ignore_index ts).cols.take (ts.getD 0 emptyTable).cols.length
          = (ts.getD 0 emptyTable).cols
      ∧ (c ∈ (pd_concat_ignore_index ts).cols ↔ ∃ t ∈ ts, c ∈ t.cols)
      ∧ (pd_concat_ignore_index ts).cols.Nodup := by
  have htsne : ts ≠ [] := fun h => hne ((okTables_nil_iff parse files ts hts).1 h)
  refine ⟨?_, ?_, ?_, ?_, ?_⟩
  · rw [combine_of_okTables parse files ts hts hne]
  · rw [pd_concat_cols, concatCols_eq_specColumnOrder]
  · cases ts with
    | nil => exact absurd rfl htsne
    | cons t0 rest =>
      rw [pd_concat_cols, concatCols_eq_specColumnOrder, List.map_cons,
        specColumnOrder_cons, List.getD_cons_zero, List.take_left]
  · rw [pd_concat_cols, mem_concatCols]
    constructor
    · rintro ⟨cs, hcs, hcin⟩
      rw [List.mem_map] at hcs
      obtain ⟨t, ht, rfl⟩ := hcs
      exact ⟨t, ht, hcin⟩
    · rintro ⟨t, ht, hcin⟩
      exact ⟨t.cols, List.mem_map_of_mem Table.cols ht, hcin⟩
  · rw [pd_concat_cols]
    apply nodup_concatCols
    intro cs hcs
    rw [List.mem_map] at hcs
    obtain ⟨t, ht, rfl⟩ := hcs
    exact hnodup t ht

theorem claim_c2_column_union_witness :
    (combine_excel_files parseDemo [fileA, fileB]).1
        = some (pd_concat_ignore_index [tableA, tableB])
      ∧ (pd_concat_ignore_index [tableA, tableB]).cols
          = specColumnOrder ([tableA, tableB].map Table.cols)
      ∧ (pd_concat_ignore_index [tableA, tableB]).cols.take
            ([tableA, tableB].getD 0 emptyTable).cols.length
          = ([tableA, tableB].getD 0 emptyTable).cols
      ∧ ("City" ∈ (pd_concat_ignore_index [tableA, tableB]).cols
          ↔ ∃ t ∈ [tableA, tableB], "City" ∈ t.cols)
      ∧ (pd_concat_ignore_index [tableA, tableB]).cols.Nodup :=
  claim_c2_column_union parseDemo [fileA, fileB] [tableA, tableB] "City"
    (by decide) (by decide) (by decide)

/-- Claim C3: for every all-parsing input, each source table `i` appears
in the combined result as a contiguous block starting at the total row
count of the preceding tables: every cell of the block equals the
corresponding source cell, and columns the source file lacks are empty
there. -/
theorem claim_c3_rows_preserved (parse : UploadedFile → Except String Table)
    (files : List UploadedFile) (ts : List Table) (i j : Nat) (c : String)
    (hts : okTables parse files = some ts)
    (hi : i < ts.length) (hj : j < (ts.getD i emptyTable).rows.length) :
    (combine_excel_files parse files).1 = some (pd_concat_ignore_index ts)
      ∧ (pd_concat_ignore_index ts).cell (rowOffset ts i + j) c
          = (ts.getD i emptyTable).cell j c
      ∧ (c ∉ (ts.getD i emptyTable).cols →
          (pd_concat_ignore_index ts).cell (rowOffset ts i + j) c = none) := by
  have htsne : ts ≠ [] := by
    intro h
    subst h
    simp at hi
  have hne : files ≠ [] := fun h =>
    htsne ((okTables_nil_iff parse files ts hts).2 h)
  refine ⟨?_, pd_concat_cell ts i j c hi hj, ?_⟩
  · rw [combine_of_okTables parse files ts hts hne]
  · intro hnc
    rw [pd_concat_cell ts i j c hi hj]
    simp only [Table.cell, (colIdx_eq_none_iff _ c).2 hnc]

theorem claim_c3_rows_preserved_witness :
    (combine_excel_files parseDemo [fileA, fileB]).1
        = some (pd_concat_ignore_index [tableA, tableB])
      ∧ (pd_concat_ignore_index [tableA, tableB]).cell
            (rowOffset [tableA, tableB] 1 + 0) "Age"
          = ([tableA, tableB].getD 1 emptyTable).cell 0 "Age"
      ∧ ("Age" ∉ ([tableA, tableB].getD 1 emptyTable).cols →
          (pd_concat_ignore_index [tableA, tableB]).cell
              (rowOffset [tableA, tableB] 1 + 0) "Age" = none) :=
  claim_c3_rows_preserved parseDemo [fileA, fileB] [tableA, tableB] 1 0 "Age"
    (by decide) (by decide) (by decide)

/-- Claim C4: when the files up to some file `f` parse successfully and
`f` fails with error `e`, the combine returns no table and reports
exactly one message naming `f` and `e`; the outcome is the same for any
parser behaviour and any file sequence after `f`, so no later file is
parsed and no partial result is produced. -/
theorem claim_c4_fail_fast (parse parse' : UploadedFile → Except String Table)
    (pre : List UploadedFile) (f : UploadedFile) (post' : List UploadedFile)
    (e : String)
    (hok : ∀ g ∈ pre, ∃ t, parse g = Except.ok t)
    (hf : parse f = Except.error e)
    (hagree : ∀ g ∈ pre, parse' g = parse g)
    (hf' : parse' f = parse f) :
    combine_excel_files parse' (pre ++ f :: post')
      = (none, ["Error reading " ++ f.name ++ ": " ++ e]) := by
  have hf'e : parse' f = Except.error e := by rw [hf']; exact hf
  have hok' : ∀ g ∈ pre, ∃ t, parse' g = Except.ok t := by
    intro g hg
    rw [hagree g hg]
    exact hok g hg
  rw [combine_excel_files, combineLoop_fail_fast parse' f e hf'e pre hok' post' []]

theorem claim_c4_fail_fast_witness :
    combine_excel_files parseDemo ([fileA] ++ fileBad :: [fileB])
      = (none, ["Error reading " ++ fileBad.name ++ ": "
          ++ "File is not a zip file"]) :=
  claim_c4_fail_fast parseDemo parseDemo [fileA] fileBad [fileB]
    "File is not a zip file"
    (by
      intro g hg
      rw [List.mem_singleton] at hg
      subst hg
      exact ⟨tableA, rfl⟩)
    rfl
    (fun g _ => rfl)
    rfl

/-- Claim C6: every successful combine returns a table whose row index
is exactly `0, 1, ..., n-1`; the inputs' own row indices are discarded:
two input lists differing only in their tables' indices concatenate to
the same table. -/
theorem claim_c6_reindex (parse : UploadedFile → Except String Table)
    (files : List UploadedFile) (r : Table) (ts ts' : List Table)
    (hr : (combine_excel_files parse files).1 = some r)
    (hcols : ts.map Table.cols = ts'.map Table.cols)
    (hrows : ts.map Table.rows = ts'.map Table.rows) :
    r.index = List.range r.rows.length
      ∧ pd_concat_ignore_index ts = pd_concat_ignore_index ts' := by
  refine ⟨?_, pd_concat_ext ts ts' hcols hrows⟩
  obtain ⟨ts0, _, _, rfl⟩ := combine_some_inv parse files r hr
  exact pd_concat_index ts0

theorem claim_c6_reindex_witness :
    (pd_concat_ignore_index [tableA, tableB]).index
        = List.range (pd_concat_ignore_index [tableA, tableB]).rows.length
      ∧ pd_concat_ignore_index [tableA] = pd_concat_ignore_index [tableA'] :=
  claim_c6_reindex parseDemo [fileA, fileB]
    (pd_concat_ignore_index [tableA, tableB]) [tableA] [tableA']
    (by decide) (by decide) (by decide)

/-- Claim C7: a file that parses to a zero-row table contributes its
columns to the combined result and no rows: the combine still succeeds,
each of that table's columns appears among the result columns, and the
result's row count already equals the sum over the other tables. -/
theorem claim_c7_zero_row_file (parse : UploadedFile → Except String Table)
    (files : List UploadedFile) (ts : List Table) (i : Nat) (c : String)
    (hts : okTables parse files = some ts) (hne : files ≠ [])
    (hi : i < ts.length)
    (hz : (ts.getD i emptyTable).rows = [])
    (hc : c ∈ (ts.getD i emptyTable).cols) :
    (combine_excel_files parse files).1 = some (pd_concat_ignore_index ts)
      ∧ c ∈ (pd_concat_ignore_index ts).cols
      ∧ (pd_concat_ignore_index ts).rows.length
          = ((ts.eraseIdx i).map (fun t => t.rows.length)).sum := by
  refine ⟨?_, ?_, ?_⟩
  · rw [combine_of_okTables parse files ts hts hne]
  · rw [pd_concat_cols]
    exact (mem_concatCols _ c).2 ⟨(ts.getD i emptyTable).cols,
      List.mem_map_of_mem Table.cols (getD_mem_of_lt ts i emptyTable hi), hc⟩
  · rw [pd_concat_length]
    exact sum_map_eraseIdx ts i hi (by rw [hz]; rfl)

theorem claim_c7_zero_row_file_witness :
    (combine_excel_files parseDemo [fileA, fileE, fileB]).1
        = some (pd_concat_ignore_index [tableA, tableE, tableB])
      ∧ "Extra" ∈ (pd_concat_ignore_index [tableA, tableE, tableB]).cols
      ∧ (pd_concat_ignore_index [tableA, tableE, tableB]).rows.length
          = (([tableA, tableE, tableB].eraseIdx 1).map
              (fun t => t.rows.length)).sum :=
  claim_c7_zero_row_file parseDemo [fileA, fileE, fileB]
    [tableA, tableE, tableB] 1 "Extra"
    (by decide) (by decide) (by decide) (by decide) (by decide)
